import Mathlib

/-!
Shallow embedding of the posts route module (src/routes/api/posts.js) of a
MERN social-network backend: nine HTTP handlers over a store of post
documents.  Each handler is a pure function from the store and the request
data to a response (or, for the two comment-mutation handlers, a trace of
the responses they attempt in order) together with the resulting store.
Mongoose cast failures on a malformed object id are modelled by the
`PostId.malformed` constructor and the `Except` error of `findById`; every
handler maps that error to a 404 response, mirroring the
`err.kind === 'ObjectId'` branches of the catch blocks in the source.
-/

/-- Modelled from the spec: the User Directory record (models/User.js is not
among the given sources) — caller identifier plus the display name and
avatar the handlers copy into posts and comments as a denormalized
snapshot. -/
structure User where
  id : Nat
  name : String
  avatar : String
deriving DecidableEq, Repr

/-- Modelled from the spec: a like subdocument of the Post schema
(models/Post.js is not among the given sources): just the author's user
identifier. -/
structure Like where
  user : Nat
deriving DecidableEq, Repr

/-- Modelled from the spec: a comment subdocument of the Post schema —
store-assigned identifier (the handlers only ever compare it as a string),
text, denormalized author name and avatar, and the author identifier. -/
structure Comment where
  id : String
  text : String
  name : String
  avatar : String
  user : Nat
deriving DecidableEq, Repr

/-- Modelled from the spec: the Post document — store-assigned identifier,
text, denormalized author fields, author identifier, creation timestamp and
the embedded like and comment lists (schema defaults: both empty). -/
structure Post where
  id : Nat
  text : String
  name : String
  avatar : String
  user : Nat
  date : Int
  likes : List Like
  comments : List Comment
deriving DecidableEq, Repr

/-- A post id route parameter: either a well-formed store reference or a
string that is not a syntactically valid object id. -/
inductive PostId where
  | valid : Nat → PostId
  | malformed : String → PostId
deriving DecidableEq, Repr

/-- The store failure the handlers inspect: the cast error mongoose throws
for a malformed object id (observed in the source as
`err.kind === 'ObjectId'`). -/
inductive StoreErr where
  | objectIdCast : StoreErr
deriving DecidableEq, Repr

/-- `Post.findById`: throws a cast error on a malformed id, otherwise
yields the first document with the given id, if any. -/
def findById (store : List Post) : PostId → Except StoreErr (Option Post)
  | PostId.malformed _ => Except.error StoreErr.objectIdCast
  | PostId.valid n => Except.ok (store.find? (fun q => q.id == n))

/-- `post.save()` for an already-stored document: the document with the
same id is replaced in place. -/
def savePost (store : List Post) (p : Post) : List Post :=
  store.map (fun q => if q.id == p.id then p else q)

/-- `post.remove()`: the document is deleted from the store. -/
def removePost (store : List Post) (p : Post) : List Post :=
  store.filter (fun q => !(q.id == p.id))

/-- One element of the array built by the `map` callback of the
update-comment handler: either a comment, or the Express response object
that `res.status(401).json(...)` returns when the callback hits the
unauthorized branch (posts.js line 250). -/
inductive MapElem where
  | comment : Comment → MapElem
  | resObject : MapElem
deriving DecidableEq, Repr

/-- The response bodies the route module produces, one constructor per
distinct shape and status: 200 bodies (post, post list, like list, comment
list, msg-plus-post, and the raw mapped array of the update-comment
handler), 404 not-found, 401 unauthorized, 400 domain errors with a
message, 400 validation errors, and the generic 500. -/
inductive Resp where
  | okPost : Post → Resp
  | okPosts : List Post → Resp
  | okLikes : List Like → Resp
  | okComments : List Comment → Resp
  | okMapped : List MapElem → Resp
  | okMsgPost : String → Post → Resp
  | notFound : Resp
  | unauthorized : Resp
  | badRequest : String → Resp
  | validationError : Resp
  | serverError : Resp
deriving DecidableEq, Repr

/-- Trace of one request to a comment-mutation handler: the responses it
attempts in order (in Express only the first one reaches the client; later
attempts raise a headers-already-sent error), the array assigned to
`post.comments` right before `post.save()` (`none` when the handler returns
before reaching the save), and, when that array contains only genuine
comments, the store resulting from the save. -/
structure CTrace where
  responses : List Resp
  savedArray : Option (List MapElem)
  savedStore : Option (List Post)
deriving DecidableEq, Repr

/-- POST api/posts (posts.js 15-42): validate text, look up the caller in
the user directory, insert a new post with denormalized author fields.
The store-assigned id and timestamp are passed as `freshId` and `now`. -/
def createPostHandler (store : List Post) (u : User) (text : String)
    (freshId : Nat) (now : Int) : Resp × List Post :=
  if text = "" then (Resp.validationError, store)
  else
    (Resp.okPost
        { id := freshId, text := text, name := u.name, avatar := u.avatar,
          user := u.id, date := now, likes := [], comments := [] },
      store ++
        [{ id := freshId, text := text, name := u.name, avatar := u.avatar,
           user := u.id, date := now, likes := [], comments := [] }])

/-- The sort key of `Post.find({}).sort({date: -1})`: non-increasing
creation date. -/
def byDateDesc (a b : Post) : Prop := b.date ≤ a.date

instance : DecidableRel byDateDesc :=
  fun a b => inferInstanceAs (Decidable (b.date ≤ a.date))

instance : IsTotal Post byDateDesc := ⟨fun a b => Int.le_total b.date a.date⟩

instance : IsTrans Post byDateDesc := ⟨fun _ _ _ h1 h2 => le_trans h2 h1⟩

/-- GET api/posts (posts.js 49-57): all posts, sorted by the store by
descending date.  The sort happens inside the external document store; it
is modelled here as a stable insertion sort on the date key. -/
def listPostsHandler (store : List Post) : Resp :=
  Resp.okPosts (List.insertionSort byDateDesc store)

/-- GET api/posts/:post_id (posts.js 64-75): the post, or 404 when absent
or when the id is malformed (cast error remapped in the catch block). -/
def getPostHandler (store : List Post) (pid : PostId) : Resp :=
  match findById store pid with
  | Except.error _ => Resp.notFound
  | Except.ok none => Resp.notFound
  | Except.ok (some p) => Resp.okPost p

/-- DELETE api/posts/:post_id (posts.js 82-97): 404 when absent/malformed,
401 when the caller is not the author, otherwise remove and confirm. -/
def deletePostHandler (store : List Post) (caller : Nat) (pid : PostId) :
    Resp × List Post :=
  match findById store pid with
  | Except.error _ => (Resp.notFound, store)
  | Except.ok none => (Resp.notFound, store)
  | Except.ok (some p) =>
    if p.user ≠ caller then (Resp.unauthorized, store)
    else (Resp.okMsgPost "Post removed" p, removePost store p)

/-- PUT api/posts/:post_id (posts.js 104-129): validate text, 404 when
absent/malformed, 401 when the caller is not the author, otherwise replace
the text in place and save. -/
def updatePostHandler (store : List Post) (caller : Nat) (pid : PostId)
    (text : String) : Resp × List Post :=
  if text = "" then (Resp.validationError, store)
  else
    match findById store pid with
    | Except.error _ => (Resp.notFound, store)
    | Except.ok none => (Resp.notFound, store)
    | Except.ok (some p) =>
      if p.user ≠ caller then (Resp.unauthorized, store)
      else
        (Resp.okMsgPost "Post updated" { p with text := text },
          savePost store { p with text := text })

/-- PUT api/posts/:post_id/like (posts.js 136-157): 404 when
absent/malformed, 400 when the caller already has a like (linear scan),
otherwise unshift a new like for the caller and save. -/
def likePostHandler (store : List Post) (caller : Nat) (pid : PostId) :
    Resp × List Post :=
  match findById store pid with
  | Except.error _ => (Resp.notFound, store)
  | Except.ok none => (Resp.notFound, store)
  | Except.ok (some p) =>
    if 0 < (p.likes.filter (fun l => l.user == caller)).length then
      (Resp.badRequest "Post already liked", store)
    else
      (Resp.okLikes ({ user := caller } :: p.likes),
        savePost store { p with likes := { user := caller } :: p.likes })

/-- PUT api/posts/:post_id/unlike (posts.js 164-188): 404 when
absent/malformed, 400 when the caller has no like, otherwise splice out
the like at the index of the first entry whose author is the caller. -/
def unlikePostHandler (store : List Post) (caller : Nat) (pid : PostId) :
    Resp × List Post :=
  match findById store pid with
  | Except.error _ => (Resp.notFound, store)
  | Except.ok none => (Resp.notFound, store)
  | Except.ok (some p) =>
    if (p.likes.filter (fun l => l.user == caller)).length = 0 then
      (Resp.badRequest "Post has not yet been liked", store)
    else
      (Resp.okLikes ((p.likes.map Like.user).indexOf caller
          |> p.likes.eraseIdx),
        savePost store
          { p with likes := (p.likes.map Like.user).indexOf caller
              |> p.likes.eraseIdx })

/-- POST api/posts/:post_id/comments (posts.js 195-228): validate text,
resolve the caller's directory snapshot, 404 when the post is
absent/malformed, otherwise unshift a new comment with denormalized author
fields and save.  The store-assigned comment id is passed as `freshId`. -/
def addCommentHandler (store : List Post) (u : User) (pid : PostId)
    (text : String) (freshId : String) : Resp × List Post :=
  if text = "" then (Resp.validationError, store)
  else
    match findById store pid with
    | Except.error _ => (Resp.notFound, store)
    | Except.ok none => (Resp.notFound, store)
    | Except.ok (some p) =>
      (Resp.okComments
          ({ id := freshId, text := text, name := u.name, avatar := u.avatar,
             user := u.id } :: p.comments),
        savePost store
          { p with comments :=
              { id := freshId, text := text, name := u.name,
                avatar := u.avatar, user := u.id } :: p.comments })

/-- The `post.comments.map((comment) => ...)` pass of the update-comment
handler (posts.js 247-256).  For each comment: on an id match by a
non-author the callback sends a 401 and returns the response object itself
into the array; on a match by the author it mutates the text; otherwise it
passes the comment through.  Returns the built array together with the
responses sent from inside the callbacks, in order.  The `map` never
aborts. -/
def updateCommentMapPass (caller : Nat) (cid : String) (text : String) :
    List Comment → List MapElem × List Resp
  | [] => ([], [])
  | c :: cs =>
    let rest := updateCommentMapPass caller cid text cs
    if c.id == cid then
      if c.user ≠ caller then
        (MapElem.resObject :: rest.1, Resp.unauthorized :: rest.2)
      else
        (MapElem.comment { c with text := text } :: rest.1, rest.2)
    else
      (MapElem.comment c :: rest.1, rest.2)

/-- Extracts the comment list from a mapped array when no response object
leaked into it; `none` otherwise (in the original, saving an array that
contains an Express response object puts the document store cast machinery
outside what the source determines). -/
def pureComments : List MapElem → Option (List Comment)
  | [] => some []
  | MapElem.comment c :: es => (pureComments es).map (fun cs => c :: cs)
  | MapElem.resObject :: _ => none

/-- PUT api/posts/:post_id/comments/:comment_id (posts.js 235-268):
validate text, 404 when the post is absent/malformed, then run the map
pass, assign its result to `post.comments`, save, and attempt
`res.json(post.comments)` — even when a 401 was already sent from inside
the map callback. -/
def updateCommentHandler (store : List Post) (caller : Nat) (pid : PostId)
    (cid : String) (text : String) : CTrace :=
  if text = "" then
    { responses := [Resp.validationError], savedArray := none,
      savedStore := none }
  else
    match findById store pid with
    | Except.error _ =>
      { responses := [Resp.notFound], savedArray := none, savedStore := none }
    | Except.ok none =>
      { responses := [Resp.notFound], savedArray := none, savedStore := none }
    | Except.ok (some p) =>
      { responses :=
          (updateCommentMapPass caller cid text p.comments).2 ++
            [Resp.okMapped (updateCommentMapPass caller cid text p.comments).1],
        savedArray := some (updateCommentMapPass caller cid text p.comments).1,
        savedStore :=
          (pureComments (updateCommentMapPass caller cid text p.comments).1).map
            (fun cs => savePost store { p with comments := cs }) }

/-- The `post.comments.filter((comment) => ...)` pass of the delete-comment
handler (posts.js 280-289).  For each comment: on an id match by a
non-author the callback sends a 401 and returns the response object — a
truthy value, so the comment is kept; on a match by the author it returns
false, dropping it; otherwise true.  Returns the kept comments together
with the responses sent from inside the callbacks, in order. -/
def deleteCommentFilterPass (caller : Nat) (cid : String) :
    List Comment → List Comment × List Resp
  | [] => ([], [])
  | c :: cs =>
    let rest := deleteCommentFilterPass caller cid cs
    if c.id == cid then
      if c.user ≠ caller then (c :: rest.1, Resp.unauthorized :: rest.2)
      else rest
    else
      (c :: rest.1, rest.2)

/-- DELETE api/posts/:post_id/comments/:comment_id (posts.js 275-322): 404
when the post is absent/malformed, then run the filter pass, assign its
result to `post.comments`, save, and attempt `res.json(post.comments)` —
even when a 401 was already sent from inside the filter callback. -/
def deleteCommentHandler (store : List Post) (caller : Nat) (pid : PostId)
    (cid : String) : CTrace :=
  match findById store pid with
  | Except.error _ =>
    { responses := [Resp.notFound], savedArray := none, savedStore := none }
  | Except.ok none =>
    { responses := [Resp.notFound], savedArray := none, savedStore := none }
  | Except.ok (some p) =>
    { responses :=
        (deleteCommentFilterPass caller cid p.comments).2 ++
          [Resp.okComments (deleteCommentFilterPass caller cid p.comments).1],
      savedArray :=
        some ((deleteCommentFilterPass caller cid p.comments).1.map
          MapElem.comment),
      savedStore :=
        some (savePost store
          { p with comments := (deleteCommentFilterPass caller cid p.comments).1 }) }

/-- A post's like list holds at most one entry per distinct author. -/
def likeInv (p : Post) : Prop :=
  ∀ u : Nat, (p.likes.filter (fun l => l.user == u)).length ≤ 1

/-- Every post in the store satisfies the like-uniqueness invariant. -/
def storeInv (store : List Post) : Prop := ∀ p ∈ store, likeInv p

/-- Sample directory record used to instantiate hypothesized theorems. -/
def sampleUser : User := { id := 1, name := "Ann", avatar := "ann.png" }

/-- Sample comment authored by user 2, used in concrete instances. -/
def sampleComment : Comment :=
  { id := "c1", text := "hi", name := "Bob", avatar := "bob.png", user := 2 }

/-- Sample post authored by user 2, liked by user 3, with one comment by
user 2, used to instantiate hypothesized theorems. -/
def samplePost : Post :=
  { id := 1, text := "hello", name := "Bob", avatar := "bob.png", user := 2,
    date := 5, likes := [{ user := 3 }], comments := [sampleComment] }

/-! ### Helper lemmas -/

theorem findIdx_map_comp {α β : Type} (f : α → β) (p : β → Bool)
    (l : List α) : (l.map f).findIdx p = l.findIdx (fun a => p (f a)) := by
  induction l with
  | nil => rfl
  | cons a l ih => simp [List.findIdx_cons, ih]

theorem eraseIdx_eq_take_append_drop {α : Type} (l : List α) (i : Nat) :
    l.eraseIdx i = l.take i ++ l.drop (i + 1) := by
  induction l generalizing i with
  | nil => cases i <;> rfl
  | cons a l ih =>
    cases i with
    | zero => rfl
    | succ j => simp [List.eraseIdx, ih]

theorem mem_savePost {store : List Post} {p q : Post}
    (h : q ∈ savePost store p) : q = p ∨ q ∈ store := by
  unfold savePost at h
  rcases List.mem_map.1 h with ⟨r, hr, hq⟩
  by_cases hid : (r.id == p.id) = true
  · rw [if_pos hid] at hq
    exact Or.inl hq.symm
  · rw [if_neg hid] at hq
    exact Or.inr (hq ▸ hr)

theorem savePost_of_all_ne {l : List Post} {p : Post}
    (h : ∀ q ∈ l, (q.id == p.id) = false) : savePost l p = l := by
  induction l with
  | nil => rfl
  | cons a l ih =>
    unfold savePost
    simp only [List.map_cons]
    rw [if_neg (by simp [h a (List.mem_cons_self a l)])]
    have := ih (fun q hq => h q (List.mem_cons_of_mem a hq))
    unfold savePost at this
    rw [this]

theorem find?_savePost (store : List Post) (p p' : Post) (n : Nat)
    (hid : p'.id = p.id)
    (h : store.find? (fun q => q.id == n) = some p) :
    (savePost store p').find? (fun q => q.id == n) = some p' := by
  have hpn0 := List.find?_some h
  have hpn : (p.id == n) = true := hpn0
  induction store with
  | nil => simp at h
  | cons a l ih =>
    cases hb : (a.id == n) with
    | true =>
      rw [List.find?_cons, hb] at h
      simp only [cond_true, Option.some.injEq] at h
      unfold savePost
      simp only [List.map_cons]
      rw [if_pos (by rw [h, hid]; simp)]
      rw [List.find?_cons]
      have hpn2 : (p'.id == n) = true := by
        rw [hid]; exact hpn
      rw [hpn2]
    | false =>
      rw [List.find?_cons, hb] at h
      simp only [cond_false] at h
      unfold savePost
      simp only [List.map_cons]
      have hane : (a.id == p'.id) = false := by
        rw [hid]
        have hpidn : p.id = n := by simpa using hpn
        rw [hpidn]
        exact hb
      rw [if_neg (by simp [hane])]
      rw [List.find?_cons, hb]
      exact ih h

theorem savePost_find?_self (store : List Post) (p : Post) (n : Nat)
    (hn : (store.map Post.id).Nodup)
    (h : store.find? (fun q => q.id == n) = some p) :
    savePost store p = store := by
  have hpn0 := List.find?_some h
  have hpn : p.id = n := by simpa using hpn0
  induction store with
  | nil => simp at h
  | cons a l ih =>
    simp only [List.map_cons, List.nodup_cons] at hn
    cases hb : (a.id == n) with
    | true =>
      rw [List.find?_cons, hb] at h
      simp only [cond_true, Option.some.injEq] at h
      unfold savePost
      simp only [List.map_cons]
      rw [if_pos (by rw [h]; simp)]
      rw [h]
      have htail : ∀ q ∈ l, (q.id == p.id) = false := by
        intro q hq
        have : q.id ≠ a.id := by
          intro hcontra
          exact hn.1 (hcontra ▸ List.mem_map_of_mem Post.id hq)
        rw [← h]
        simp [this]
      have := savePost_of_all_ne htail
      unfold savePost at this
      rw [this]
    | false =>
      rw [List.find?_cons, hb] at h
      simp only [cond_false] at h
      unfold savePost
      simp only [List.map_cons]
      have hane : (a.id == p.id) = false := by
        rw [hpn]; exact hb
      rw [if_neg (by simp at hane ⊢; exact hane)]
      have := ih hn.2 h
      unfold savePost at this
      rw [this]

theorem updateCommentMapPass_no_match {caller : Nat} {cid text : String}
    {cs : List Comment} (h : ∀ c ∈ cs, c.id ≠ cid) :
    updateCommentMapPass caller cid text cs = (cs.map MapElem.comment, []) := by
  induction cs with
  | nil => rfl
  | cons c cs ih =>
    unfold updateCommentMapPass
    rw [if_neg (by simp [h c (List.mem_cons_self c cs)])]
    rw [ih (fun d hd => h d (List.mem_cons_of_mem c hd))]
    rfl

theorem deleteCommentFilterPass_no_match {caller : Nat} {cid : String}
    {cs : List Comment} (h : ∀ c ∈ cs, c.id ≠ cid) :
    deleteCommentFilterPass caller cid cs = (cs, []) := by
  induction cs with
  | nil => rfl
  | cons c cs ih =>
    unfold deleteCommentFilterPass
    rw [if_neg (by simp [h c (List.mem_cons_self c cs)])]
    rw [ih (fun d hd => h d (List.mem_cons_of_mem c hd))]

theorem pureComments_map (cs : List Comment) :
    pureComments (cs.map MapElem.comment) = some cs := by
  induction cs with
  | nil => rfl
  | cons c cs ih => simp [pureComments, ih]

/-! ### Claim theorems -/

/-- C1: the claim that an authorization rejection on a nested comment
aborts the whole request is violated by the code.  At a concrete request
where the post exists, the addressed comment exists with author 2 and the
caller is 1, both comment-mutation handlers send the 401 from inside the
transform callback, but the request continues: the transformed array is
still assigned to the post and saved, and the final success response is
still attempted after the 401 (for the update handler the saved array even
contains the response object in place of the comment). -/
theorem comment_auth_rejection_does_not_abort :
    (updateCommentHandler [samplePost] 1 (PostId.valid 1) "c1" "new").responses
        = [Resp.unauthorized, Resp.okMapped [MapElem.resObject]]
    ∧ (updateCommentHandler [samplePost] 1 (PostId.valid 1) "c1" "new").savedArray
        = some [MapElem.resObject]
    ∧ (deleteCommentHandler [samplePost] 1 (PostId.valid 1) "c1").responses
        = [Resp.unauthorized, Resp.okComments [sampleComment]]
    ∧ (deleteCommentHandler [samplePost] 1 (PostId.valid 1) "c1").savedStore
        = some [samplePost] := by decide

/-- C2: every id-bearing handler maps a syntactically malformed post id to
exactly the not-found response — never the generic server error — and
leaves the store untouched. -/
theorem malformed_id_yields_not_found (store : List Post) (caller : Nat)
    (s : String) (u : User) (text cid fid : String) (ht : text ≠ "") :
    getPostHandler store (PostId.malformed s) = Resp.notFound
    ∧ deletePostHandler store caller (PostId.malformed s)
        = (Resp.notFound, store)
    ∧ updatePostHandler store caller (PostId.malformed s) text
        = (Resp.notFound, store)
    ∧ likePostHandler store caller (PostId.malformed s)
        = (Resp.notFound, store)
    ∧ unlikePostHandler store caller (PostId.malformed s)
        = (Resp.notFound, store)
    ∧ addCommentHandler store u (PostId.malformed s) text fid
        = (Resp.notFound, store)
    ∧ (updateCommentHandler store caller (PostId.malformed s) cid text).responses
        = [Resp.notFound]
    ∧ (deleteCommentHandler store caller (PostId.malformed s) cid).responses
        = [Resp.notFound]
    ∧ Resp.notFound ≠ Resp.serverError := by
  refine ⟨rfl, rfl, ?_, rfl, rfl, ?_, ?_, rfl, by decide⟩
  · simp [updatePostHandler, findById, ht]
  · simp [addCommentHandler, findById, ht]
  · simp [updateCommentHandler, findById, ht]

/-- Witness for C2 at a concrete malformed id. -/
theorem malformed_id_yields_not_found_witness :
    getPostHandler [samplePost] (PostId.malformed "zzz") = Resp.notFound
    ∧ likePostHandler [samplePost] 1 (PostId.malformed "zzz")
        = (Resp.notFound, [samplePost]) :=
  ⟨(malformed_id_yields_not_found [samplePost] 1 "zzz" sampleUser "t" "c" "d"
      (by decide)).1,
   (malformed_id_yields_not_found [samplePost] 1 "zzz" sampleUser "t" "c" "d"
      (by decide)).2.2.2.1⟩

/-- C6: on an existing post, add-comment prepends exactly one comment
carrying the given text, the caller's denormalized directory snapshot and
the caller's identifier; the length grows by one and the previous comments
are kept in order (they form the tail of the new list). -/
theorem add_comment_prepends (store : List Post) (u : User) (pid : PostId)
    (text fid : String) (p : Post) (ht : text ≠ "")
    (hp : findById store pid = Except.ok (some p)) :
    addCommentHandler store u pid text fid
      = (Resp.okComments
          ({ id := fid, text := text, name := u.name, avatar := u.avatar,
             user := u.id } :: p.comments),
         savePost store
           { p with comments :=
               { id := fid, text := text, name := u.name, avatar := u.avatar,
                 user := u.id } :: p.comments })
    ∧ ({ id := fid, text := text, name := u.name, avatar := u.avatar,
         user := u.id } :: p.comments).length = p.comments.length + 1 := by
  refine ⟨?_, rfl⟩
  unfold addCommentHandler
  simp [ht, hp]

/-- Witness for C6 at a concrete post and comment. -/
theorem add_comment_prepends_witness :
    addCommentHandler [samplePost] sampleUser (PostId.valid 1) "yo" "c9"
      = (Resp.okComments
          ({ id := "c9", text := "yo", name := sampleUser.name,
             avatar := sampleUser.avatar, user := sampleUser.id }
            :: samplePost.comments),
         savePost [samplePost]
           { samplePost with comments :=
               { id := "c9", text := "yo", name := sampleUser.name,
                 avatar := sampleUser.avatar, user := sampleUser.id }
                 :: samplePost.comments }) :=
  (add_comment_prepends [samplePost] sampleUser (PostId.valid 1) "yo" "c9"
    samplePost (by decide) rfl).1

/-- C7: on an existing post, delete-post and update-post by a non-author
answer 401 and leave the store untouched; by the author they succeed, and
the text replacement of update-post is visible on a subsequent fetch. -/
theorem post_owner_authorization (store : List Post) (caller : Nat)
    (pid : PostId) (text : String) (p : Post) (ht : text ≠ "")
    (hp : findById store pid = Except.ok (some p)) :
    (p.user ≠ caller →
      deletePostHandler store caller pid = (Resp.unauthorized, store)
      ∧ updatePostHandler store caller pid text = (Resp.unauthorized, store))
    ∧ (p.user = caller →
      deletePostHandler store caller pid
        = (Resp.okMsgPost "Post removed" p, removePost store p)
      ∧ (updatePostHandler store caller pid text).1
        = Resp.okMsgPost "Post updated" { p with text := text }
      ∧ getPostHandler (updatePostHandler store caller pid text).2 pid
        = Resp.okPost { p with text := text }) := by
  cases pid with
  | malformed s => simp [findById] at hp
  | valid n =>
    simp only [findById, Except.ok.injEq] at hp
    constructor
    · intro hne
      constructor
      · simp [deletePostHandler, findById, hp, hne]
      · simp [updatePostHandler, findById, ht, hp, hne]
    · intro heq
      refine ⟨?_, ?_, ?_⟩
      · simp [deletePostHandler, findById, hp, heq]
      · simp [updatePostHandler, findById, ht, hp, heq]
      · have hstep : updatePostHandler store caller (PostId.valid n) text
            = (Resp.okMsgPost "Post updated" { p with text := text },
               savePost store { p with text := text }) := by
          simp [updatePostHandler, findById, ht, hp, heq]
        rw [hstep]
        simp only [getPostHandler, findById]
        rw [find?_savePost store p { p with text := text } n rfl hp]

/-- Witness for C7: the author (user 2) updates the sample post and the
new text is visible on a subsequent fetch. -/
theorem post_owner_authorization_witness :
    getPostHandler
        (updatePostHandler [samplePost] 2 (PostId.valid 1) "edited").2
        (PostId.valid 1)
      = Resp.okPost { samplePost with text := "edited" } :=
  ((post_owner_authorization [samplePost] 2 (PostId.valid 1) "edited"
      samplePost (by decide) rfl).2 rfl).2.2

/-- C10: when like fails with already-liked or unlike fails with
not-yet-liked, the handler returns before any save: the response is the
domain error and the store is returned exactly as loaded. -/
theorem like_unlike_error_atomic (store : List Post) (caller : Nat)
    (pid : PostId) (p : Post)
    (hp : findById store pid = Except.ok (some p)) :
    (0 < (p.likes.filter (fun l => l.user == caller)).length →
      likePostHandler store caller pid
        = (Resp.badRequest "Post already liked", store))
    ∧ ((p.likes.filter (fun l => l.user == caller)).length = 0 →
      unlikePostHandler store caller pid
        = (Resp.badRequest "Post has not yet been liked", store)) := by
  constructor
  · intro h
    unfold likePostHandler
    rw [hp]
    simp [h]
  · intro h
    unfold unlikePostHandler
    rw [hp]
    simp [h]

/-- Witness for C10: duplicate like by user 3 and unlike by user 1 (who
holds no like) on the sample post both fail atomically. -/
theorem like_unlike_error_atomic_witness :
    likePostHandler [samplePost] 3 (PostId.valid 1)
        = (Resp.badRequest "Post already liked", [samplePost])
    ∧ unlikePostHandler [samplePost] 1 (PostId.valid 1)
        = (Resp.badRequest "Post has not yet been liked", [samplePost]) :=
  ⟨(like_unlike_error_atomic [samplePost] 3 (PostId.valid 1) samplePost
      rfl).1 (by decide),
   (like_unlike_error_atomic [samplePost] 1 (PostId.valid 1) samplePost
      rfl).2 (by decide)⟩

theorem take_findIdx_not {α : Type} (p : α → Bool) (l : List α) :
    ∀ x ∈ l.take (l.findIdx p), p x = false := by
  induction l with
  | nil => simp
  | cons a l ih =>
    cases hb : p a with
    | true => simp [List.findIdx_cons, hb]
    | false =>
      intro x hx
      rw [List.findIdx_cons, hb] at hx
      simp only [cond_false] at hx
      rw [List.take_succ_cons] at hx
      rcases List.mem_cons.1 hx with h1 | h2
      · rw [h1]; exact hb
      · exact ih x h2

/-- C8: list-posts returns a permutation of the whole store — nothing
filtered, nothing paginated away — sorted by non-increasing creation
date. -/
theorem list_posts_sorted_desc (store : List Post) :
    ∃ l, listPostsHandler store = Resp.okPosts l
      ∧ l.Perm store
      ∧ l.Sorted byDateDesc :=
  ⟨List.insertionSort byDateDesc store, rfl,
   List.perm_insertionSort byDateDesc store,
   List.sorted_insertionSort byDateDesc store⟩

/-- C4: a successful like followed by a successful unlike by the same
caller (who held no like beforehand) returns the post's like list to its
pre-like state: the unlike response carries exactly the original list and
so does the post found in the final store. -/
theorem like_unlike_round_trip (store : List Post) (caller : Nat) (n : Nat)
    (p : Post)
    (hp : findById store (PostId.valid n) = Except.ok (some p))
    (h0 : (p.likes.filter (fun l => l.user == caller)).length = 0) :
    (unlikePostHandler (likePostHandler store caller (PostId.valid n)).2
        caller (PostId.valid n)).1 = Resp.okLikes p.likes
    ∧ ∃ p2, findById
          (unlikePostHandler (likePostHandler store caller (PostId.valid n)).2
            caller (PostId.valid n)).2 (PostId.valid n)
          = Except.ok (some p2)
        ∧ p2.likes = p.likes := by
  simp only [findById, Except.ok.injEq] at hp
  have hlike : likePostHandler store caller (PostId.valid n)
      = (Resp.okLikes ({ user := caller } :: p.likes),
         savePost store { p with likes := { user := caller } :: p.likes }) := by
    simp [likePostHandler, findById, hp, h0]
  have hfind1 : List.find? (fun q => q.id == n)
      (savePost store { p with likes := { user := caller } :: p.likes })
      = some { p with likes := { user := caller } :: p.likes } :=
    find?_savePost store p { p with likes := { user := caller } :: p.likes }
      n rfl hp
  have hcount : (({ user := caller } :: p.likes).filter
      (fun l => l.user == caller)).length = 1 := by
    simp [List.filter_cons, h0]
  have hunlike : unlikePostHandler
      (savePost store { p with likes := { user := caller } :: p.likes })
      caller (PostId.valid n)
      = (Resp.okLikes p.likes,
         savePost (savePost store
           { p with likes := { user := caller } :: p.likes }) p) := by
    simp only [unlikePostHandler, findById]
    rw [hfind1]
    simp [hcount]
  have hfind2 : List.find? (fun q => q.id == n)
      (savePost (savePost store
        { p with likes := { user := caller } :: p.likes }) p) = some p :=
    find?_savePost
      (savePost store { p with likes := { user := caller } :: p.likes })
      { p with likes := { user := caller } :: p.likes } p n rfl hfind1
  rw [hlike]
  constructor
  · rw [hunlike]
  · refine ⟨p, ?_, rfl⟩
    rw [hunlike]
    simp only [findById]
    rw [hfind2]

/-- Witness for C4: user 1 (no prior like) likes then unlikes the sample
post; the unlike response carries the original like list. -/
theorem like_unlike_round_trip_witness :
    (unlikePostHandler (likePostHandler [samplePost] 1 (PostId.valid 1)).2
        1 (PostId.valid 1)).1 = Resp.okLikes samplePost.likes :=
  (like_unlike_round_trip [samplePost] 1 1 samplePost rfl (by decide)).1

/-- C5: unlike with no like by the caller fails with the not-yet-liked
message and leaves the store untouched; with a like present it removes
exactly the entry at the first scan-order index whose author is the
caller (the entries before it all have other authors), keeping everything
else in original relative order in both the response and the saved
post. -/
theorem unlike_removes_first_match (store : List Post) (caller : Nat)
    (pid : PostId) (p : Post)
    (hp : findById store pid = Except.ok (some p)) :
    ((p.likes.filter (fun l => l.user == caller)).length = 0 →
      unlikePostHandler store caller pid
        = (Resp.badRequest "Post has not yet been liked", store))
    ∧ (0 < (p.likes.filter (fun l => l.user == caller)).length →
      ∃ (i : Nat) (hi : i < p.likes.length),
        i = p.likes.findIdx (fun l => l.user == caller)
        ∧ (p.likes.get ⟨i, hi⟩).user = caller
        ∧ (∀ x ∈ p.likes.take i, x.user ≠ caller)
        ∧ unlikePostHandler store caller pid
            = (Resp.okLikes (p.likes.take i ++ p.likes.drop (i + 1)),
               savePost store
                 { p with likes :=
                     p.likes.take i ++ p.likes.drop (i + 1) })) := by
  cases pid with
  | malformed s => simp [findById] at hp
  | valid n =>
    simp only [findById, Except.ok.injEq] at hp
    constructor
    · intro h
      simp [unlikePostHandler, findById, hp, h]
    · intro h
      have hne : p.likes.filter (fun l => l.user == caller) ≠ [] := by
        intro hnil
        rw [hnil] at h
        simp at h
      obtain ⟨x, hxf⟩ := List.exists_mem_of_ne_nil _ hne
      have hx := List.mem_filter.1 hxf
      have hex : ∃ y ∈ p.likes, (fun l => l.user == caller) y = true :=
        ⟨x, hx.1, hx.2⟩
      have hi : p.likes.findIdx (fun l => l.user == caller) < p.likes.length :=
        List.findIdx_lt_length_of_exists hex
      refine ⟨p.likes.findIdx (fun l => l.user == caller), hi, rfl, ?_, ?_, ?_⟩
      · have hg := List.findIdx_getElem (w := hi)
        simp only [List.get_eq_getElem]
        simpa using hg
      · intro y hy
        have hf := take_findIdx_not (fun l => l.user == caller) p.likes y hy
        simpa using hf
      · have hcount :
            ¬((p.likes.filter (fun l => l.user == caller)).length = 0) := by
          omega
        have hidx : (p.likes.map Like.user).indexOf caller
            = p.likes.findIdx (fun l => l.user == caller) := by
          have h1 : (p.likes.map Like.user).indexOf caller
              = (p.likes.map Like.user).findIdx (fun x => x == caller) := rfl
          rw [h1, findIdx_map_comp]
        simp only [unlikePostHandler, findById, hp]
        rw [if_neg hcount, hidx, eraseIdx_eq_take_append_drop]

/-- Witness for C5: user 3 unlikes the sample post; the single like (at
scan index 0) is removed. -/
theorem unlike_removes_first_match_witness :
    ∃ (i : Nat) (hi : i < samplePost.likes.length),
      i = samplePost.likes.findIdx (fun l => l.user == 3)
      ∧ (samplePost.likes.get ⟨i, hi⟩).user = 3
      ∧ (∀ x ∈ samplePost.likes.take i, x.user ≠ 3)
      ∧ unlikePostHandler [samplePost] 3 (PostId.valid 1)
          = (Resp.okLikes
              (samplePost.likes.take i ++ samplePost.likes.drop (i + 1)),
             savePost [samplePost]
               { samplePost with likes :=
                   samplePost.likes.take i ++ samplePost.likes.drop (i + 1) }) :=
  (unlike_removes_first_match [samplePost] 3 (PostId.valid 1) samplePost
    rfl).2 (by decide)

/-- C9: when the post exists but no comment carries the requested
identifier (a syntactically malformed comment id included: the handlers
compare comment ids only by string equality, so it matches nothing and
raises nothing), update-comment and delete-comment answer with the single
success response carrying the unchanged comment list — no not-found is
ever produced — and the saved store is exactly the loaded one. -/
theorem missing_comment_id_yields_success (store : List Post) (caller : Nat)
    (pid : PostId) (cid text : String) (p : Post)
    (hn : (store.map Post.id).Nodup) (ht : text ≠ "")
    (hp : findById store pid = Except.ok (some p))
    (hc : ∀ c ∈ p.comments, c.id ≠ cid) :
    updateCommentHandler store caller pid cid text
      = { responses := [Resp.okMapped (p.comments.map MapElem.comment)],
          savedArray := some (p.comments.map MapElem.comment),
          savedStore := some store }
    ∧ deleteCommentHandler store caller pid cid
      = { responses := [Resp.okComments p.comments],
          savedArray := some (p.comments.map MapElem.comment),
          savedStore := some store } := by
  cases pid with
  | malformed s => simp [findById] at hp
  | valid n =>
    simp only [findById, Except.ok.injEq] at hp
    have heta : ({ p with comments := p.comments } : Post) = p := rfl
    have hsave : savePost store p = store := savePost_find?_self store p n hn hp
    constructor
    · simp only [updateCommentHandler, findById, if_neg ht, hp,
        updateCommentMapPass_no_match hc, pureComments_map, List.nil_append,
        Option.map_some']
      rw [heta, hsave]
    · simp only [deleteCommentHandler, findById, hp,
        deleteCommentFilterPass_no_match hc, List.nil_append]
      rw [heta, hsave]

/-- Witness for C9: comment id "zzz" matches nothing on the sample post;
the update-comment request still answers 200 with the unchanged list. -/
theorem missing_comment_id_yields_success_witness :
    updateCommentHandler [samplePost] 1 (PostId.valid 1) "zzz" "t"
      = { responses := [Resp.okMapped (samplePost.comments.map MapElem.comment)],
          savedArray := some (samplePost.comments.map MapElem.comment),
          savedStore := some [samplePost] } :=
  (missing_comment_id_yields_success [samplePost] 1 (PostId.valid 1) "zzz"
    "t" samplePost (by decide) (by decide) rfl (by decide)).1

theorem storeInv_savePost {store : List Post} {p : Post}
    (hs : storeInv store) (hp : likeInv p) : storeInv (savePost store p) := by
  intro q hq
  rcases mem_savePost hq with h1 | h2
  · rw [h1]; exact hp
  · exact hs q h2

theorem likeInv_eraseIdx (p : Post) (i : Nat) (h : likeInv p) :
    likeInv { p with likes := p.likes.eraseIdx i } := by
  intro u
  have hsub := (List.eraseIdx_sublist p.likes i).filter (fun l => l.user == u)
  exact le_trans hsub.length_le (h u)

theorem likeInv_like_cons (p : Post) (caller : Nat) (h : likeInv p)
    (h0 : (p.likes.filter (fun l => l.user == caller)).length = 0) :
    likeInv { p with likes := { user := caller } :: p.likes } := by
  intro u
  by_cases hu : caller = u
  · subst hu
    simp only [List.filter_cons]
    rw [if_pos (by simp)]
    simp [h0]
  · simp only [List.filter_cons]
    rw [if_neg (by simp [hu])]
    exact h u

theorem samplePost_storeInv : storeInv [samplePost] := by
  intro q hq
  rw [List.mem_singleton] at hq
  subst hq
  intro u
  cases h : ((3 : Nat) == u) <;> simp [samplePost, List.filter_cons, h]

/-- C3: like-uniqueness.  First, a like by a caller who already holds one
is rejected with the already-liked message, the store is returned as
loaded, and — under the invariant — that caller's like count is exactly 1
(so it stays at 1).  Second, every store-mutating operation of the module
(create, delete, update, like, unlike, add comment, and the saved stores
of the two comment-mutation handlers, which never touch the likes field)
preserves the invariant that no post carries two likes by one author —
like being the only operation that ever adds a like entry, and only when
the caller had none. -/
theorem like_uniqueness_invariant :
    (∀ store caller pid p, storeInv store →
      findById store pid = Except.ok (some p) →
      0 < (p.likes.filter (fun l => l.user == caller)).length →
      likePostHandler store caller pid
        = (Resp.badRequest "Post already liked", store)
      ∧ (p.likes.filter (fun l => l.user == caller)).length = 1)
    ∧ (∀ store u text fid now, storeInv store →
        storeInv (createPostHandler store u text fid now).2)
    ∧ (∀ store caller pid, storeInv store →
        storeInv (deletePostHandler store caller pid).2)
    ∧ (∀ store caller pid text, storeInv store →
        storeInv (updatePostHandler store caller pid text).2)
    ∧ (∀ store caller pid, storeInv store →
        storeInv (likePostHandler store caller pid).2)
    ∧ (∀ store caller pid, storeInv store →
        storeInv (unlikePostHandler store caller pid).2)
    ∧ (∀ store u pid text fid, storeInv store →
        storeInv (addCommentHandler store u pid text fid).2)
    ∧ (∀ store caller pid cid text st, storeInv store →
        (updateCommentHandler store caller pid cid text).savedStore = some st →
        storeInv st)
    ∧ (∀ store caller pid cid st, storeInv store →
        (deleteCommentHandler store caller pid cid).savedStore = some st →
        storeInv st) := by
  refine ⟨?_, ?_, ?_, ?_, ?_, ?_, ?_, ?_, ?_⟩
  · intro store caller pid p hs hp hl
    have hmem : p ∈ store := by
      cases pid with
      | malformed s => simp [findById] at hp
      | valid n =>
        simp only [findById, Except.ok.injEq] at hp
        exact List.mem_of_find?_eq_some hp
    have hle := hs p hmem caller
    constructor
    · cases pid with
      | malformed s => simp [findById] at hp
      | valid n =>
        simp only [findById, Except.ok.injEq] at hp
        simp [likePostHandler, findById, hp, hl]
    · omega
  · intro store u text fid now hs
    by_cases ht : text = ""
    · have hsnd : (createPostHandler store u text fid now).2 = store := by
        simp [createPostHandler, ht]
      rw [hsnd]; exact hs
    · have hsnd : (createPostHandler store u text fid now).2
          = store ++
            [({ id := fid, text := text, name := u.name,
                avatar := u.avatar, user := u.id, date := now, likes := [],
                comments := [] } : Post)] := by
        simp [createPostHandler, ht]
      rw [hsnd]
      intro q hq
      rcases List.mem_append.1 hq with h1 | h2
      · exact hs q h1
      · rw [List.mem_singleton] at h2
        subst h2
        intro v
        simp
  · intro store caller pid hs
    cases pid with
    | malformed s => exact hs
    | valid n =>
      cases hfind : store.find? (fun r => r.id == n) with
      | none =>
        have hsnd : (deletePostHandler store caller (PostId.valid n)).2
            = store := by
          simp [deletePostHandler, findById, hfind]
        rw [hsnd]; exact hs
      | some p =>
        by_cases hne : p.user ≠ caller
        · have hsnd : (deletePostHandler store caller (PostId.valid n)).2
              = store := by
            simp [deletePostHandler, findById, hfind, hne]
          rw [hsnd]; exact hs
        · have hsnd : (deletePostHandler store caller (PostId.valid n)).2
              = removePost store p := by
            simp [deletePostHandler, findById, hfind, hne]
          rw [hsnd]
          intro q hq
          exact hs q (List.mem_of_mem_filter hq)
  · intro store caller pid text hs
    by_cases ht : text = ""
    · have hsnd : (updatePostHandler store caller pid text).2 = store := by
        simp [updatePostHandler, ht]
      rw [hsnd]; exact hs
    · cases pid with
      | malformed s =>
        have hsnd :
            (updatePostHandler store caller (PostId.malformed s) text).2
            = store := by
          simp [updatePostHandler, findById, ht]
        rw [hsnd]; exact hs
      | valid n =>
        cases hfind : store.find? (fun r => r.id == n) with
        | none =>
          have hsnd : (updatePostHandler store caller (PostId.valid n) text).2
              = store := by
            simp [updatePostHandler, findById, ht, hfind]
          rw [hsnd]; exact hs
        | some p =>
          by_cases hne : p.user ≠ caller
          · have hsnd :
                (updatePostHandler store caller (PostId.valid n) text).2
                = store := by
              simp [updatePostHandler, findById, ht, hfind, hne]
            rw [hsnd]; exact hs
          · have hsnd :
                (updatePostHandler store caller (PostId.valid n) text).2
                = savePost store { p with text := text } := by
              simp [updatePostHandler, findById, ht, hfind, hne]
            rw [hsnd]
            exact storeInv_savePost hs
              (hs p (List.mem_of_find?_eq_some hfind))
  · intro store caller pid hs
    cases pid with
    | malformed s => exact hs
    | valid n =>
      cases hfind : store.find? (fun r => r.id == n) with
      | none =>
        have hsnd : (likePostHandler store caller (PostId.valid n)).2
            = store := by
          simp [likePostHandler, findById, hfind]
        rw [hsnd]; exact hs
      | some p =>
        by_cases hl : 0 < (p.likes.filter (fun l => l.user == caller)).length
        · have hsnd : (likePostHandler store caller (PostId.valid n)).2
              = store := by
            simp [likePostHandler, findById, hfind, hl]
          rw [hsnd]; exact hs
        · have h0 : (p.likes.filter (fun l => l.user == caller)).length
              = 0 := by omega
          have hsnd : (likePostHandler store caller (PostId.valid n)).2
              = savePost store
                  { p with likes := { user := caller } :: p.likes } := by
            simp [likePostHandler, findById, hfind, h0]
          rw [hsnd]
          exact storeInv_savePost hs
            (likeInv_like_cons p caller
              (hs p (List.mem_of_find?_eq_some hfind)) h0)
  · intro store caller pid hs
    cases pid with
    | malformed s => exact hs
    | valid n =>
      cases hfind : store.find? (fun r => r.id == n) with
      | none =>
        have hsnd : (unlikePostHandler store caller (PostId.valid n)).2
            = store := by
          simp [unlikePostHandler, findById, hfind]
        rw [hsnd]; exact hs
      | some p =>
        by_cases hz : (p.likes.filter (fun l => l.user == caller)).length = 0
        · have hsnd : (unlikePostHandler store caller (PostId.valid n)).2
              = store := by
            simp [unlikePostHandler, findById, hfind, hz]
          rw [hsnd]; exact hs
        · have hsnd : (unlikePostHandler store caller (PostId.valid n)).2
              = savePost store
                  { p with
                    likes :=
                      p.likes.eraseIdx
                        ((p.likes.map Like.user).indexOf caller) } := by
            simp [unlikePostHandler, findById, hfind, hz]
          rw [hsnd]
          exact storeInv_savePost hs
            (likeInv_eraseIdx p _ (hs p (List.mem_of_find?_eq_some hfind)))
  · intro store u pid text fid hs
    by_cases ht : text = ""
    · have hsnd : (addCommentHandler store u pid text fid).2 = store := by
        simp [addCommentHandler, ht]
      rw [hsnd]; exact hs
    · cases pid with
      | malformed s =>
        have hsnd : (addCommentHandler store u (PostId.malformed s) text fid).2
            = store := by
          simp [addCommentHandler, findById, ht]
        rw [hsnd]; exact hs
      | valid n =>
        cases hfind : store.find? (fun r => r.id == n) with
        | none =>
          have hsnd : (addCommentHandler store u (PostId.valid n) text fid).2
              = store := by
            simp [addCommentHandler, findById, ht, hfind]
          rw [hsnd]; exact hs
        | some p =>
          have hsnd : (addCommentHandler store u (PostId.valid n) text fid).2
              = savePost store
                  { p with comments :=
                      { id := fid, text := text, name := u.name,
                        avatar := u.avatar, user := u.id } :: p.comments } := by
            simp [addCommentHandler, findById, ht, hfind]
          rw [hsnd]
          exact storeInv_savePost hs (hs p (List.mem_of_find?_eq_some hfind))
  · intro store caller pid cid text st hs hsome
    by_cases ht : text = ""
    · simp [updateCommentHandler, ht] at hsome
    · cases pid with
      | malformed s => simp [updateCommentHandler, findById, ht] at hsome
      | valid n =>
        cases hfind : store.find? (fun r => r.id == n) with
        | none => simp [updateCommentHandler, findById, ht, hfind] at hsome
        | some p =>
          simp only [updateCommentHandler, findById, if_neg ht, hfind] at hsome
          rcases Option.map_eq_some'.1 hsome with ⟨cs, hcs, hst⟩
          rw [← hst]
          exact storeInv_savePost hs (hs p (List.mem_of_find?_eq_some hfind))
  · intro store caller pid cid st hs hsome
    cases pid with
    | malformed s => simp [deleteCommentHandler, findById] at hsome
    | valid n =>
      cases hfind : store.find? (fun r => r.id == n) with
      | none => simp [deleteCommentHandler, findById, hfind] at hsome
      | some p =>
        simp only [deleteCommentHandler, findById, hfind,
          Option.some.injEq] at hsome
        rw [← hsome]
        exact storeInv_savePost hs (hs p (List.mem_of_find?_eq_some hfind))

/-- Witness for C3: user 3, who already holds the single like on the
sample post, tries to like it again: rejected, store untouched, count 1. -/
theorem like_uniqueness_invariant_witness :
    likePostHandler [samplePost] 3 (PostId.valid 1)
        = (Resp.badRequest "Post already liked", [samplePost])
    ∧ (samplePost.likes.filter (fun l => l.user == 3)).length = 1 :=
  like_uniqueness_invariant.1 [samplePost] 3 (PostId.valid 1) samplePost
    samplePost_storeInv rfl (by decide)
